import Mathlib

/-!
# Verification of the chrominance-extraction core of `image-tools`

This development embeds the core of `src/extract_chrominance.py`:

* the per-pixel channel transform of `extract_chrominance_with_alpha`
  (BGR → YCrCb conversion, luma overwrite, YCrCb → BGR conversion, optional
  alpha derivation from the pre-overwrite luma), and
* the batch orchestrator `batch_process_folder`.

The colour-space conversions are performed by the script through
`cv2.cvtColor(·, cv2.COLOR_BGR2YCrCb)` and `cv2.cvtColor(·, cv2.COLOR_YCrCb2BGR)`
on 8-bit images; we embed OpenCV's documented fixed-point 8-bit algorithm
(coefficients at `yuv_shift = 14`, `CV_DESCALE` rounding, `saturate_cast` to
`[0,255]`).  The scaled alpha branch
`(y_original * (alpha_value / 255.0)).astype(np.uint8)` is computed by numpy in
IEEE-754 binary64; we embed that computation exactly via an integer emulation of
round-to-nearest-even (see `scaledAlpha`).

Channel values are natural numbers in `[0,255]`; intermediate conversion
arithmetic is over `ℤ` with explicit flooring division, exactly as the C
arithmetic underlying OpenCV behaves.
-/

/-! ## Fixed-point YCrCb conversion (OpenCV 8-bit path) -/

/-- OpenCV macro `CV_DESCALE(x, 14)`: add `2^13` and arithmetic-shift right by 14
(flooring division, as OpenCV's `CV_DESCALE` behaves on signed ints). -/
def descale (x : Int) : Int := (x + 8192) / 16384

/-- OpenCV cast `cv::saturate_cast<uchar>`: clamp an integer into the byte range. -/
def satUInt8 (x : Int) : Nat := (min 255 (max 0 x)).toNat

/-- A 3-channel pixel in OpenCV's BGR channel order (each channel a byte). -/
structure BGRPixel where
  b : Nat
  g : Nat
  r : Nat
deriving DecidableEq, Repr

/-- A 4-channel BGRA pixel (pre-existing or derived alpha in the 4th channel). -/
structure BGRAPixel where
  b : Nat
  g : Nat
  r : Nat
  a : Nat
deriving DecidableEq, Repr

/-- A pixel of the luma/chroma (YCrCb) representation. -/
structure YCrCbPixel where
  y : Nat
  cr : Nat
  cb : Nat
deriving DecidableEq, Repr

/-- OpenCV `COLOR_BGR2YCrCb` on 8-bit data (integer path, `yuv_shift = 14`):
`Y = descale(B*1868 + G*9617 + R*4899)`, `Cr = descale((R-Y)*11682 + 128*2^14)`,
`Cb = descale((B-Y)*9241 + 128*2^14)`, each saturated to `[0,255]`. -/
def bgr2ycrcb (p : BGRPixel) : YCrCbPixel :=
  let yv : Int := descale ((p.b : Int) * 1868 + (p.g : Int) * 9617 + (p.r : Int) * 4899)
  { y := satUInt8 yv
  , cr := satUInt8 (descale (((p.r : Int) - yv) * 11682 + 128 * 16384))
  , cb := satUInt8 (descale (((p.b : Int) - yv) * 9241 + 128 * 16384)) }

/-- The pre-saturation channel values of OpenCV `COLOR_YCrCb2BGR` (integer path):
`b = Y + descale((Cb-128)*29049)`, `g = Y + descale((Cb-128)*(-5636) + (Cr-128)*(-11698))`,
`r = Y + descale((Cr-128)*22987)`. -/
def ycrcb2bgrRaw (p : YCrCbPixel) : Int × Int × Int :=
  ( (p.y : Int) + descale (((p.cb : Int) - 128) * 29049)
  , (p.y : Int) + descale (((p.cb : Int) - 128) * (-5636) + ((p.cr : Int) - 128) * (-11698))
  , (p.y : Int) + descale (((p.cr : Int) - 128) * 22987) )

/-- OpenCV `COLOR_YCrCb2BGR` on 8-bit data: the raw values saturated to bytes. -/
def ycrcb2bgr (p : YCrCbPixel) : BGRPixel :=
  let raw := ycrcb2bgrRaw p
  { b := satUInt8 raw.1, g := satUInt8 raw.2.1, r := satUInt8 raw.2.2 }

example : bgr2ycrcb ⟨0, 0, 255⟩ = ⟨76, 255, 85⟩ := by decide
example : ycrcb2bgr ⟨255, 255, 85⟩ = ⟨179, 179, 255⟩ := by decide
example : bgr2ycrcb ⟨179, 179, 255⟩ = ⟨202, 166, 115⟩ := by decide
example : bgr2ycrcb ⟨128, 128, 128⟩ = ⟨128, 128, 128⟩ := by decide

/-! ## Exact embedding of the binary64 scaled-alpha computation

The script's scaled branch (lines 66–70) computes
`(y_original * scale_factor).astype(np.uint8)` with
`scale_factor = alpha_value / 255.0`: two IEEE-754 binary64 operations
(a division and a multiplication, each rounded to nearest, ties to even)
followed by a truncating cast.  Both operands are bytes, so every value is a
nonnegative dyadic rational that we can track exactly with natural numbers. -/

/-- Round `num / den` to the nearest integer, ties to even. -/
def roundDiv (num den : Nat) : Nat :=
  let q := num / den
  let r := num % den
  if den < 2 * r then q + 1
  else if 2 * r < den then q
  else if q % 2 = 1 then q + 1 else q

/-- The binade shift for `a / 255.0` with `1 ≤ a ≤ 255`: the least `s` with
`255 * 2^52 ≤ a * 2^s`, so that `a * 2^s / 255 ∈ [2^52, 2^53)` is a normalised
binary64 significand.  (The value for `a = 0` is irrelevant: the product is 0.) -/
def sExp (a : Nat) : Nat :=
  if 255 * 2 ^ 52 ≤ a * 2 ^ 52 then 52
  else if 255 * 2 ^ 52 ≤ a * 2 ^ 53 then 53
  else if 255 * 2 ^ 52 ≤ a * 2 ^ 54 then 54
  else if 255 * 2 ^ 52 ≤ a * 2 ^ 55 then 55
  else if 255 * 2 ^ 52 ≤ a * 2 ^ 56 then 56
  else if 255 * 2 ^ 52 ≤ a * 2 ^ 57 then 57
  else if 255 * 2 ^ 52 ≤ a * 2 ^ 58 then 58
  else if 255 * 2 ^ 52 ≤ a * 2 ^ 59 then 59
  else 60

/-- The binary64 significand of `RN(a / 255.0)` at scale `2^(sExp a)`:
the double `a / 255.0` is exactly `sigOf255 a / 2^(sExp a)`. -/
def sigOf255 (a : Nat) : Nat := roundDiv (a * 2 ^ sExp a) 255

/-- Fuel-driven binary length: `bitlenAux fuel n` is the bit length of `n`
provided `n < 2 ^ fuel` (structural recursion so that it reduces in the kernel). -/
def bitlenAux : Nat → Nat → Nat
  | 0, _ => 0
  | fuel + 1, n => if n = 0 then 0 else bitlenAux fuel (n / 2) + 1

/-- Bit length of a natural number below `2^64`. -/
def bitlen (n : Nat) : Nat := bitlenAux 64 n

/-- Exact value of `uint8(y * (a / 255.0))` computed in binary64 and truncated,
emulated with integer arithmetic: multiply `y` by the significand of
`a / 255.0`, round the product to 53 significant bits (nearest, ties to even),
then floor at scale `2^(sExp a)`. -/
def scaledAlpha (y a : Nat) : Nat :=
  let m := y * sigOf255 a
  let t := bitlen m - 53
  roundDiv m (2 ^ t) * 2 ^ t / 2 ^ sExp a

/-- The per-pixel alpha derivation of lines 62–70: when `alpha_value = 255` the
original luma is copied verbatim (line 64); otherwise the binary64 scaled
computation of lines 69–70 runs. -/
def deriveAlpha (yOriginal alphaValue : Nat) : Nat :=
  if alphaValue = 255 then yOriginal else scaledAlpha yOriginal alphaValue

example : scaledAlpha 85 147 = 48 := by decide
example : scaledAlpha 153 195 = 116 := by decide
example : scaledAlpha 255 254 = 254 := by decide
example : scaledAlpha 100 0 = 0 := by decide
example : scaledAlpha 200 128 = 100 := by decide
example : deriveAlpha 201 255 = 201 := by decide

/-! ## The image model and the channel transform -/

/-- A decoded image as `cv2.imread(path, cv2.IMREAD_UNCHANGED)` delivers it:
either a 3-channel BGR buffer or a 4-channel BGRA buffer (pixels in row-major
order; the grid shape plays no role in the per-pixel transform). -/
inductive Img where
  | bgr (pixels : List BGRPixel)
  | bgra (pixels : List BGRAPixel)
deriving DecidableEq, Repr

/-- Does the buffer carry a 4th channel? (`has_alpha`, line 35.) -/
def Img.hasAlpha : Img → Bool
  | .bgr _ => false
  | .bgra _ => true

/-- The 3 colour channels of the buffer (line 41 slices away the 4th channel
when present; otherwise the buffer itself, line 44). -/
def Img.colorPixels : Img → List BGRPixel
  | .bgr ps => ps
  | .bgra ps => ps.map (fun p => ⟨p.b, p.g, p.r⟩)

/-- The 4th channel of the buffer, empty for 3-channel buffers. -/
def Img.alphaChannel : Img → List Nat
  | .bgr _ => []
  | .bgra ps => ps.map (·.a)

/-- Lines 42/44: convert the colour channels to YCrCb. -/
def toYCrCb (ps : List BGRPixel) : List YCrCbPixel := ps.map bgr2ycrcb

/-- The luma channel `ycrcb[:, :, 0]` of a YCrCb buffer. -/
def lumaChannel (ps : List YCrCbPixel) : List Nat := ps.map (·.y)

/-- Line 50: overwrite the luma channel with a constant. -/
def setLuma (ps : List YCrCbPixel) (v : Nat) : List YCrCbPixel :=
  ps.map (fun p => { p with y := v })

/-- Line 53: convert back to BGR. -/
def toBGR (ps : List YCrCbPixel) : List BGRPixel := ps.map ycrcb2bgr

/-- The original luma of a decoded buffer: the luma channel of the YCrCb
conversion of its colour channels, before any overwrite — the value captured
by the `ycrcb[:, :, 0].copy()` snapshot of line 47. -/
def originalLuma (img : Img) : List Nat := lumaChannel (toYCrCb img.colorPixels)

/-- Lines 34–72/86 of `extract_chrominance_with_alpha`: the pure pixel work on
a decoded buffer, with already-clamped parameters.  The `yOriginal` binding is
the line-47 snapshot (`ycrcb[:, :, 0].copy()`, taken before the overwrite of
line 50; the script computes it only under `alpha_mode` and reads it only in
the alpha branch, so computing it unconditionally here is equivalent); the
derived alpha of lines 62–70 is computed from it, never from the overwritten
channel. -/
def transformCore (img : Img) (yValue : Nat) (alphaMode : Bool) (alphaValue : Nat) : Img :=
  let ycrcb := toYCrCb img.colorPixels
  let yOriginal := lumaChannel ycrcb
  let bgrResult := toBGR (setLuma ycrcb yValue)
  if alphaMode then
    Img.bgra (List.zipWith (fun p y0 => ⟨p.b, p.g, p.r, deriveAlpha y0 alphaValue⟩)
      bgrResult yOriginal)
  else
    Img.bgr bgrResult

/-! ## The full per-file call and the batch orchestrator -/

/-- A path split as `os.path.splitext` splits it: everything before the
extension, and the extension (with its dot). -/
structure PathParts where
  base : String
  ext : String
deriving DecidableEq, Repr

/-- ASCII lowercase (`str.lower()` as applied to extensions). -/
def strLower (s : String) : String := ⟨s.data.map Char.toLower⟩

/-- The output-path policy of lines 74–91: alpha mode derives
`<base>_chroma_alpha.png` or forces a given path to `.png`; fixed-luma mode
derives `<base>_chroma_y<y><ext>` or keeps a given path unchanged. -/
def outputPathFor (inputPath : PathParts) (outputPathOpt : Option PathParts)
    (yValue : Nat) (alphaMode : Bool) : PathParts :=
  if alphaMode then
    match outputPathOpt with
    | none => ⟨inputPath.base ++ "_chroma_alpha", ".png"⟩
    | some o => if strLower o.ext ≠ ".png" then ⟨o.base, ".png"⟩ else o
  else
    match outputPathOpt with
    | none => ⟨inputPath.base ++ "_chroma_y" ++ toString yValue, inputPath.ext⟩
    | some o => o

/-- Outcome of one `extract_chrominance_with_alpha` call: the returned boolean
and the file written on success (the `cv2.imwrite` target and buffer). -/
structure ExtractOutcome where
  ok : Bool
  written : Option (PathParts × Img)
deriving DecidableEq, Repr

/-- The function `extract_chrominance_with_alpha` (lines 7–109).  The interaction with the
filesystem is passed in explicitly: `decoded` is what `cv2.imread input_path`
returns (`none` for a missing, unreadable, corrupt or unsupported source,
line 28), and `imwriteOk` is whether `cv2.imwrite` succeeds on the destination
(line 99).  Directory creation (lines 93–96) is filesystem plumbing with no
bearing on the claims and is not tracked. -/
def extract_chrominance_with_alpha (decoded : Option Img) (inputPath : PathParts)
    (outputPathOpt : Option PathParts) (yValue : Int) (alphaMode : Bool)
    (alphaValue : Int) (imwriteOk : Bool) : ExtractOutcome :=
  let yv : Nat := (max 0 (min 255 yValue)).toNat          -- line 24
  let av : Nat := (max 0 (min 255 alphaValue)).toNat      -- line 25
  match decoded with
  | none => ⟨false, none⟩                                 -- lines 30–32
  | some img =>
    let resultImg := transformCore img yv alphaMode av    -- lines 34–72/86
    let outPath := outputPathFor inputPath outputPathOpt yv alphaMode
    if imwriteOk then ⟨true, some (outPath, resultImg)⟩   -- lines 100–106
    else ⟨false, none⟩                                    -- lines 107–109

/-- A directory entry as `Path.iterdir` yields it: stem and suffix of the name,
whether it is a regular file, what `cv2.imread` returns for it, and whether
writing its output succeeds. -/
structure Entry where
  stem : String
  suffix : String
  isFile : Bool
  decoded : Option Img
  imwriteOk : Bool

/-- Line 142: the extension allow-list. -/
def image_extensions : List String := [".jpg", ".jpeg", ".png", ".bmp", ".tif", ".tiff"]

/-- The line-154 filter: a regular file whose lowercased suffix is allow-listed. -/
def isSelected (e : Entry) : Bool :=
  e.isFile && image_extensions.contains (strLower e.suffix)

/-- The loop of lines 153–166: every selected entry is processed — a failure
increments `count_fail` and the loop continues with the remaining entries. -/
def processEntries : List Entry → Int → Bool → Int → Nat × Nat × List PathParts
  | [], _, _, _ => (0, 0, [])
  | e :: rest, yValue, alphaMode, alphaValue =>
    let acc := processEntries rest yValue alphaMode alphaValue
    if isSelected e then
      let outName : PathParts :=
        if alphaMode then ⟨e.stem ++ "_alpha", ".png"⟩            -- line 159
        else ⟨e.stem ++ "_y" ++ toString yValue, e.suffix⟩        -- line 155
      let r := extract_chrominance_with_alpha e.decoded ⟨e.stem, e.suffix⟩
        (some outName) yValue alphaMode alphaValue e.imwriteOk
      if r.ok then (acc.1 + 1, acc.2.1, (r.written.toList.map Prod.fst) ++ acc.2.2)
      else (acc.1, acc.2.1 + 1, acc.2.2)
    else acc

/-- Result of `batch_process_folder`: the returned counter pair plus the I/O
footprint the claims need (whether the output directory was created, and the
files written). -/
structure BatchOutcome where
  successes : Nat
  failures : Nat
  madeOutputDir : Bool
  written : List PathParts

/-- The function `batch_process_folder` (lines 111–173).  `folder` is `none` when the input
path does not exist or is not a directory (the guard of lines 127–129 then
returns `(0, 0)` at once); otherwise it is the directory listing.
`outputDirExisted` says whether the output folder already exists (line 138);
the `mkdir` of line 139 is recorded in `madeOutputDir`. -/
def batch_process_folder (folder : Option (List Entry)) (yValue : Int)
    (alphaMode : Bool) (alphaValue : Int) (outputDirExisted : Bool) : BatchOutcome :=
  match folder with
  | none => ⟨0, 0, false, []⟩
  | some entries =>
    let res := processEntries entries yValue alphaMode alphaValue
    ⟨res.1, res.2.1, !outputDirExisted, res.2.2⟩

/-- The mutually exclusive CLI mode group of lines 187–191: `argparse` rejects
a command line that names both `-y`/`--y_value` and `-a`/`--alpha`; every other
combination parses. -/
def cliModeGroupAccepts (ySpecified alphaSpecified : Bool) : Bool :=
  !(ySpecified && alphaSpecified)

/-! ## Helper lemmas -/

lemma zipWith_const_snd {α β γ : Type} (f : β → γ) :
    ∀ (as : List α) (bs : List β), as.length = bs.length →
      List.zipWith (fun _ b => f b) as bs = bs.map f
  | [], [], _ => rfl
  | _ :: as, b :: bs, h => by
    simp only [List.zipWith_cons_cons, List.map_cons, List.cons.injEq, true_and]
    exact zipWith_const_snd f as bs (by simpa using h)

/-- The derived 4th channel of an alpha-mode transform is `deriveAlpha` mapped
over the pre-overwrite luma snapshot. -/
lemma alphaChannel_transformCore (img : Img) (yv av : Nat) :
    (transformCore img yv true av).alphaChannel
      = (originalLuma img).map (fun y0 => deriveAlpha y0 av) := by
  simp only [transformCore, if_true, Img.alphaChannel, originalLuma, List.map_zipWith]
  exact zipWith_const_snd _ _ _
    (by simp [toBGR, setLuma, lumaChannel, List.length_map])

/-! ## Claims -/

/-- C1.  When `alphaMode` is true, the transform derives every pixel of the
4th channel from the pre-overwrite luma snapshot (`originalLuma`, the line-47
copy): the output alpha channel equals `deriveAlpha` mapped over it — and is
therefore independent of the `yValue` that overwrites the luma channel. -/
theorem c1_alpha_from_pre_overwrite_snapshot (img : Img) (yValue yValue' alphaValue : Nat) :
    (transformCore img yValue true alphaValue).alphaChannel
        = (originalLuma img).map (fun y0 => deriveAlpha y0 alphaValue) ∧
    (transformCore img yValue true alphaValue).alphaChannel
        = (transformCore img yValue' true alphaValue).alphaChannel := by
  refine ⟨alphaChannel_transformCore img yValue alphaValue, ?_⟩
  rw [alphaChannel_transformCore img yValue alphaValue,
    alphaChannel_transformCore img yValue' alphaValue]

/-- C2.  With `alphaScale = 255` the derived alpha channel is pixel-for-pixel
the original (pre-overwrite) luma channel: the line-64 fast path copies
`y_original` verbatim. -/
theorem c2_alpha_fast_path_identity (img : Img) (yValue : Nat) :
    (transformCore img yValue true 255).alphaChannel = originalLuma img := by
  rw [alphaChannel_transformCore img yValue 255]
  simp [deriveAlpha]

/-- C3 counterexample.  Invoking the core function directly with a non-default
fixed luma value (200) and alpha mode enabled raises nothing and is not
rejected: on a decodable one-pixel image it processes the file, performs its
write and reports success. -/
theorem c3_counterexample_core_accepts_both :
    (extract_chrominance_with_alpha (some (Img.bgr [⟨10, 20, 30⟩])) ⟨"photo", ".jpg"⟩
        none 200 true 255 true).ok = true ∧
    (extract_chrominance_with_alpha (some (Img.bgr [⟨10, 20, 30⟩])) ⟨"photo", ".jpg"⟩
        none 200 true 255 true).written.isSome = true := by
  decide

/-- C3 (amended).  The mutual exclusivity of a fixed luma value and alpha mode
is enforced only by the CLI argument parser (the mutually exclusive group of
lines 187–191 rejects a command line naming both `-y` and `-a` before any file
is touched); the core function itself performs no such check and, invoked with
both parameters set, processes the file and performs its I/O. -/
theorem c3_exclusivity_cli_only (img : Img) (p : PathParts) (yValue alphaValue : Int) :
    cliModeGroupAccepts true true = false ∧
    (extract_chrominance_with_alpha (some img) p none yValue true alphaValue true).ok = true ∧
    (extract_chrominance_with_alpha (some img) p none yValue true alphaValue
        true).written.isSome = true := by
  refine ⟨rfl, ?_, ?_⟩ <;> simp [extract_chrominance_with_alpha]

/-- C4.  A source that cannot be decoded (`cv2.imread` returns `None`) or a
result that fails to encode (`cv2.imwrite` returns falsy) makes the transform
return the failure indicator `False` — no fault propagates, and nothing is
recorded as written. -/
theorem c4_failure_returns_false (decoded : Option Img) (inputPath : PathParts)
    (outputPathOpt : Option PathParts) (yValue : Int) (alphaMode : Bool)
    (alphaValue : Int) (imwriteOk : Bool)
    (h : decoded = none ∨ imwriteOk = false) :
    (extract_chrominance_with_alpha decoded inputPath outputPathOpt yValue alphaMode
        alphaValue imwriteOk).ok = false ∧
    (extract_chrominance_with_alpha decoded inputPath outputPathOpt yValue alphaMode
        alphaValue imwriteOk).written = none := by
  rcases h with h | h
  · subst h; simp [extract_chrominance_with_alpha]
  · subst h; cases decoded <;> simp [extract_chrominance_with_alpha]

/-- Witness for C4 at concrete inputs: an unreadable source, and separately a
failing write of a decodable one-pixel image. -/
theorem c4_failure_returns_false_witness :
    ((none : Option Img) = none ∨ true = false) ∧
    (extract_chrominance_with_alpha none ⟨"photo", ".jpg"⟩ none 128 false 255 true).ok
        = false ∧
    (extract_chrominance_with_alpha none ⟨"photo", ".jpg"⟩ none 128 false 255
        true).written = none :=
  ⟨Or.inl rfl,
    (c4_failure_returns_false none ⟨"photo", ".jpg"⟩ none 128 false 255 true
      (Or.inl rfl)).1,
    (c4_failure_returns_false none ⟨"photo", ".jpg"⟩ none 128 false 255 true
      (Or.inl rfl)).2⟩

/-- C6 counterexample.  A 4-channel input processed with `alphaMode = false`
does not carry its alpha channel into the output: the input's 4th channel is
`[200]`, the output is a 3-channel buffer with no 4th channel at all. -/
theorem c6_counterexample_alpha_dropped :
    (Img.bgra [⟨10, 20, 30, 200⟩]).alphaChannel = [200] ∧
    (transformCore (Img.bgra [⟨10, 20, 30, 200⟩]) 128 false 255).hasAlpha = false ∧
    (transformCore (Img.bgra [⟨10, 20, 30, 200⟩]) 128 false 255).alphaChannel = [] := by
  decide

/-- C6 (amended).  With a 4-channel input and `alphaMode = false`, only the 3
colour channels go through the luma/chroma round trip (line 41 slices them
out); the pre-existing alpha channel is extracted but dropped — the output is
the 3-channel converted result. -/
theorem c6_nonalpha_drops_input_alpha (ps : List BGRAPixel) (yValue alphaValue : Nat) :
    transformCore (Img.bgra ps) yValue false alphaValue
        = Img.bgr (toBGR (setLuma (toYCrCb (ps.map (fun p => ⟨p.b, p.g, p.r⟩))) yValue)) ∧
    (transformCore (Img.bgra ps) yValue false alphaValue).hasAlpha = false := by
  constructor <;> simp [transformCore, Img.colorPixels, Img.hasAlpha]

/-- C10.  Handed a path that is missing or not a directory, the batch
orchestrator returns the counter pair `(0, 0)` — the same counters as a run
over an empty directory — creates no output directory and processes no file. -/
theorem c10_invalid_folder_noop (yValue : Int) (alphaMode : Bool) (alphaValue : Int)
    (outputDirExisted : Bool) :
    (batch_process_folder none yValue alphaMode alphaValue outputDirExisted).successes = 0 ∧
    (batch_process_folder none yValue alphaMode alphaValue outputDirExisted).failures = 0 ∧
    (batch_process_folder none yValue alphaMode alphaValue
        outputDirExisted).madeOutputDir = false ∧
    (batch_process_folder none yValue alphaMode alphaValue outputDirExisted).written = [] ∧
    (batch_process_folder none yValue alphaMode alphaValue outputDirExisted).successes
        = (batch_process_folder (some []) yValue alphaMode alphaValue
            outputDirExisted).successes ∧
    (batch_process_folder none yValue alphaMode alphaValue outputDirExisted).failures
        = (batch_process_folder (some []) yValue alphaMode alphaValue
            outputDirExisted).failures := by
  exact ⟨rfl, rfl, rfl, rfl, rfl, rfl⟩

/-! ## Bounds for the binary64 emulation -/

lemma sExp_ge (a : Nat) : 52 ≤ sExp a := by
  unfold sExp; split_ifs <;> omega

lemma sExp_le (a : Nat) : sExp a ≤ 60 := by
  unfold sExp; split_ifs <;> omega

lemma sExp_lower (a : Nat) (h : 1 ≤ a) : 255 * 2 ^ 52 ≤ a * 2 ^ sExp a := by
  unfold sExp; split_ifs <;> omega

lemma sExp_upper (a : Nat) (h : a ≤ 255) : a * 2 ^ sExp a < 255 * 2 ^ 53 := by
  unfold sExp; split_ifs <;> omega

/-- The rounding `roundDiv num den` differs from the exact quotient by at most one half. -/
lemma roundDiv_bounds (num den : Nat) (h : 0 < den) :
    2 * (roundDiv num den) * den ≤ 2 * num + den ∧
    2 * num ≤ 2 * (roundDiv num den) * den + den := by
  have h1 : num / den * den + num % den = num := Nat.div_add_mod' num den
  have h2 : num % den < den := Nat.mod_lt num h
  simp only [roundDiv]
  generalize hq : num / den = q at *
  generalize hr : num % den = r at *
  split_ifs with hc1 hc2 hc3 <;>
    constructor <;> nlinarith [h1, h2]

lemma bitlenAux_zero (fuel : Nat) : bitlenAux fuel 0 = 0 := by
  cases fuel <;> simp [bitlenAux]

lemma bitlenAux_spec : ∀ fuel n, n < 2 ^ fuel →
    n < 2 ^ bitlenAux fuel n ∧ (1 ≤ n → 2 ^ (bitlenAux fuel n - 1) ≤ n)
  | 0, n, h => by
    simp only [bitlenAux]
    simp only [pow_zero] at h ⊢
    omega
  | fuel + 1, n, h => by
    by_cases h0 : n = 0
    · subst h0; simp [bitlenAux]
    · have hrec : n / 2 < 2 ^ fuel := by
        rw [pow_succ] at h; omega
      have ih := bitlenAux_spec fuel (n / 2) hrec
      simp only [bitlenAux, h0, if_neg, ite_false]
      constructor
      · rw [pow_succ]
        have := ih.1
        omega
      · intro _
        by_cases h2 : n / 2 = 0
        · rw [h2, bitlenAux_zero]
          simpa using Nat.one_le_iff_ne_zero.mpr h0
        · have hn2 : 1 ≤ n / 2 := Nat.one_le_iff_ne_zero.mpr h2
          have hB1 : 1 ≤ bitlenAux fuel (n / 2) := by
            by_contra hc
            have hz : bitlenAux fuel (n / 2) = 0 := by omega
            have := ih.1
            rw [hz, pow_zero] at this
            omega
          have hlow := ih.2 hn2
          have h2B : 2 ^ bitlenAux fuel (n / 2)
              = 2 * 2 ^ (bitlenAux fuel (n / 2) - 1) := by
            conv_lhs => rw [show bitlenAux fuel (n / 2)
              = (bitlenAux fuel (n / 2) - 1) + 1 by omega]
            rw [pow_succ]; ring
          simp only [Nat.add_sub_cancel]
          rw [h2B]
          omega

lemma floorDiv_le (R S a : Nat) (hS : 0 < S) (h : R < (a + 1) * S) : R / S ≤ a :=
  Nat.lt_succ_iff.mp ((Nat.div_lt_iff_lt_mul hS).mpr h)

lemma floorDivMono (a b c d : Nat) (hb : 0 < b) (hd : 0 < d) (h : a * d ≤ c * b) :
    a / b ≤ c / d := by
  rw [Nat.le_div_iff_mul_le hd]
  have h1 : a / b * d * b ≤ a * d := by
    calc a / b * d * b = a / b * b * d := by ring
      _ ≤ a * d := Nat.mul_le_mul_right d (Nat.div_mul_le_self a b)
  exact Nat.le_of_mul_le_mul_right (h1.trans h) hb

lemma bitlen_le_62 (m : Nat) (h : m < 2 ^ 62) : bitlen m ≤ 62 := by
  by_cases h0 : m = 0
  · subst h0; simp [bitlen, bitlenAux_zero]
  · have hs := bitlenAux_spec 64 m (h.trans (by norm_num))
    have hlow := hs.2 (Nat.one_le_iff_ne_zero.mpr h0)
    by_contra hc
    have h63 : 62 ≤ bitlen m - 1 := by omega
    have hp : (2 : Nat) ^ 62 ≤ 2 ^ (bitlen m - 1) :=
      Nat.pow_le_pow_right (by norm_num) h63
    have : (2 : Nat) ^ 62 ≤ m := le_trans hp hlow
    omega

lemma sigOf255_le (a : Nat) (ha : a ≤ 255) : sigOf255 a ≤ 2 ^ 53 := by
  have hb := roundDiv_bounds (a * 2 ^ sExp a) 255 (by norm_num)
  have hup := sExp_upper a ha
  unfold sigOf255
  nlinarith [hb.1, hup]

lemma sigOf255_lt_pow (a : Nat) (ha : a ≤ 254) : sigOf255 a < 2 ^ sExp a := by
  have hb := roundDiv_bounds (a * 2 ^ sExp a) 255 (by norm_num)
  have h1 : 2 * sigOf255 a * 255 ≤ 2 * (a * 2 ^ sExp a) + 255 := hb.1
  have hS : (2 : Nat) ^ 52 ≤ 2 ^ sExp a := Nat.pow_le_pow_right (by norm_num) (sExp_ge a)
  have ha1 : a * 2 ^ sExp a ≤ 254 * 2 ^ sExp a := Nat.mul_le_mul_right _ ha
  nlinarith [h1, hS, ha1]

lemma scaledAlpha_zero (a : Nat) : scaledAlpha 0 a = 0 := by
  simp only [scaledAlpha]
  rw [Nat.zero_mul]
  rw [show roundDiv 0 (2 ^ (bitlen 0 - 53)) * 2 ^ (bitlen 0 - 53) = 0 from rfl]
  exact Nat.zero_div _

/-- The binary64 scaled alpha never exceeds the scale value. -/
lemma scaledAlpha_le (y a : Nat) (hy : y ≤ 255) (ha : a ≤ 254) :
    scaledAlpha y a ≤ a := by
  have hS52 : (2 : Nat) ^ 52 ≤ 2 ^ sExp a := Nat.pow_le_pow_right (by norm_num) (sExp_ge a)
  have hSpos : 0 < (2 : Nat) ^ sExp a := by positivity
  have hb := roundDiv_bounds (a * 2 ^ sExp a) 255 (by norm_num)
  have hn53 : sigOf255 a ≤ 2 ^ 53 := sigOf255_le a (by omega)
  have hm : y * sigOf255 a ≤ 255 * 2 ^ 53 := Nat.mul_le_mul hy hn53
  have hm62 : y * sigOf255 a < 2 ^ 62 := lt_of_le_of_lt hm (by norm_num)
  have hbl : bitlen (y * sigOf255 a) ≤ 62 := bitlen_le_62 _ hm62
  have ht : (2 : Nat) ^ (bitlen (y * sigOf255 a) - 53) ≤ 512 := by
    calc (2 : Nat) ^ (bitlen (y * sigOf255 a) - 53) ≤ 2 ^ 9 :=
      Nat.pow_le_pow_right (by norm_num) (by omega)
    _ = 512 := by norm_num
  have htpos : 0 < (2 : Nat) ^ (bitlen (y * sigOf255 a) - 53) := by positivity
  have hr := roundDiv_bounds (y * sigOf255 a) (2 ^ (bitlen (y * sigOf255 a) - 53)) htpos
  have hyn : 2 * (y * sigOf255 a) ≤ 2 * (255 * sigOf255 a) := by
    have := Nat.mul_le_mul_right (sigOf255 a) hy
    omega
  show roundDiv (y * sigOf255 a) (2 ^ (bitlen (y * sigOf255 a) - 53))
      * 2 ^ (bitlen (y * sigOf255 a) - 53) / 2 ^ sExp a ≤ a
  apply floorDiv_le _ _ _ hSpos
  have key : 2 * (roundDiv (y * sigOf255 a) (2 ^ (bitlen (y * sigOf255 a) - 53))
      * 2 ^ (bitlen (y * sigOf255 a) - 53)) < 2 * ((a + 1) * 2 ^ sExp a) := by
    have h1 := hr.1
    have h2 : 2 * sigOf255 a * 255 ≤ 2 * (a * 2 ^ sExp a) + 255 := hb.1
    nlinarith [hS52, ht, hyn]
  omega

/-- The binary64 scaled alpha never exceeds the input luma. -/
lemma scaledAlpha_le_y (y a : Nat) (hy : y ≤ 255) (ha : a ≤ 254) :
    scaledAlpha y a ≤ y := by
  have hS52 : (2 : Nat) ^ 52 ≤ 2 ^ sExp a := Nat.pow_le_pow_right (by norm_num) (sExp_ge a)
  have hSpos : 0 < (2 : Nat) ^ sExp a := by positivity
  have hn53 : sigOf255 a ≤ 2 ^ 53 := sigOf255_le a (by omega)
  have hnS : sigOf255 a < 2 ^ sExp a := sigOf255_lt_pow a ha
  have hm : y * sigOf255 a ≤ 255 * 2 ^ 53 := Nat.mul_le_mul hy hn53
  have hm62 : y * sigOf255 a < 2 ^ 62 := lt_of_le_of_lt hm (by norm_num)
  have hbl : bitlen (y * sigOf255 a) ≤ 62 := bitlen_le_62 _ hm62
  have ht : (2 : Nat) ^ (bitlen (y * sigOf255 a) - 53) ≤ 512 := by
    calc (2 : Nat) ^ (bitlen (y * sigOf255 a) - 53) ≤ 2 ^ 9 :=
      Nat.pow_le_pow_right (by norm_num) (by omega)
    _ = 512 := by norm_num
  have htpos : 0 < (2 : Nat) ^ (bitlen (y * sigOf255 a) - 53) := by positivity
  have hr := roundDiv_bounds (y * sigOf255 a) (2 ^ (bitlen (y * sigOf255 a) - 53)) htpos
  have hyS : y * sigOf255 a + y ≤ y * 2 ^ sExp a := by
    have := Nat.mul_le_mul_left y hnS
    nlinarith [this]
  show roundDiv (y * sigOf255 a) (2 ^ (bitlen (y * sigOf255 a) - 53))
      * 2 ^ (bitlen (y * sigOf255 a) - 53) / 2 ^ sExp a ≤ y
  apply floorDiv_le _ _ _ hSpos
  have h1 := hr.1
  nlinarith [h1, ht, hyS, hS52]

/-- Comparing binary64 values of `a1 / 255.0 < a2 / 255.0` across their scales:
the significand comparison holds with slack covering both rounding errors. -/
lemma sig_cross_mono (a1 a2 : Nat) (hlt : a1 < a2) :
    sigOf255 a1 * 2 ^ sExp a2 + 256 * (2 ^ sExp a1 + 2 ^ sExp a2)
      ≤ sigOf255 a2 * 2 ^ sExp a1 := by
  have hb1 : 2 * sigOf255 a1 * 255 ≤ 2 * (a1 * 2 ^ sExp a1) + 255 :=
    (roundDiv_bounds (a1 * 2 ^ sExp a1) 255 (by norm_num)).1
  have hb2 : 2 * (a2 * 2 ^ sExp a2) ≤ 2 * sigOf255 a2 * 255 + 255 :=
    (roundDiv_bounds (a2 * 2 ^ sExp a2) 255 (by norm_num)).2
  have hS1_52 : (2 : Nat) ^ 52 ≤ 2 ^ sExp a1 := Nat.pow_le_pow_right (by norm_num) (sExp_ge a1)
  have hS2_52 : (2 : Nat) ^ 52 ≤ 2 ^ sExp a2 := Nat.pow_le_pow_right (by norm_num) (sExp_ge a2)
  have m1 : 2 * sigOf255 a1 * 255 * 2 ^ sExp a2
      ≤ (2 * (a1 * 2 ^ sExp a1) + 255) * 2 ^ sExp a2 := Nat.mul_le_mul_right _ hb1
  have m2 : 2 * (a2 * 2 ^ sExp a2) * 2 ^ sExp a1
      ≤ (2 * sigOf255 a2 * 255 + 255) * 2 ^ sExp a1 := Nat.mul_le_mul_right _ hb2
  have m3 : (a1 + 1) * (2 ^ sExp a1 * 2 ^ sExp a2) ≤ a2 * (2 ^ sExp a1 * 2 ^ sExp a2) :=
    Nat.mul_le_mul_right _ hlt
  have m4 : (2 : Nat) ^ 52 * 2 ^ sExp a2 ≤ 2 ^ sExp a1 * 2 ^ sExp a2 :=
    Nat.mul_le_mul_right _ hS1_52
  have m5 : (2 : Nat) ^ 52 * 2 ^ sExp a1 ≤ 2 ^ sExp a2 * 2 ^ sExp a1 :=
    Nat.mul_le_mul_right _ hS2_52
  nlinarith [m1, m2, m3, m4, m5]

/-- The binary64 scaled alpha is nondecreasing in the scale value. -/
lemma scaledAlpha_mono (y a1 a2 : Nat) (hy : y ≤ 255) (h12 : a1 ≤ a2) (ha2 : a2 ≤ 254) :
    scaledAlpha y a1 ≤ scaledAlpha y a2 := by
  rcases Nat.eq_or_lt_of_le h12 with rfl | hlt
  · exact le_refl _
  by_cases hy0 : y = 0
  · subst hy0; rw [scaledAlpha_zero, scaledAlpha_zero]
  have hy1 : 1 ≤ y := Nat.one_le_iff_ne_zero.mpr hy0
  have hS1pos : 0 < (2 : Nat) ^ sExp a1 := by positivity
  have hS2pos : 0 < (2 : Nat) ^ sExp a2 := by positivity
  have hn1 : sigOf255 a1 ≤ 2 ^ 53 := sigOf255_le a1 (by omega)
  have hn2 : sigOf255 a2 ≤ 2 ^ 53 := sigOf255_le a2 (by omega)
  have hm1 : y * sigOf255 a1 < 2 ^ 62 :=
    lt_of_le_of_lt (Nat.mul_le_mul hy hn1) (by norm_num)
  have hm2 : y * sigOf255 a2 < 2 ^ 62 :=
    lt_of_le_of_lt (Nat.mul_le_mul hy hn2) (by norm_num)
  have ht1 : (2 : Nat) ^ (bitlen (y * sigOf255 a1) - 53) ≤ 512 := by
    calc (2 : Nat) ^ (bitlen (y * sigOf255 a1) - 53) ≤ 2 ^ 9 :=
      Nat.pow_le_pow_right (by norm_num) (by have := bitlen_le_62 _ hm1; omega)
    _ = 512 := by norm_num
  have ht2 : (2 : Nat) ^ (bitlen (y * sigOf255 a2) - 53) ≤ 512 := by
    calc (2 : Nat) ^ (bitlen (y * sigOf255 a2) - 53) ≤ 2 ^ 9 :=
      Nat.pow_le_pow_right (by norm_num) (by have := bitlen_le_62 _ hm2; omega)
    _ = 512 := by norm_num
  have ht1pos : 0 < (2 : Nat) ^ (bitlen (y * sigOf255 a1) - 53) := by positivity
  have ht2pos : 0 < (2 : Nat) ^ (bitlen (y * sigOf255 a2) - 53) := by positivity
  have hr1 := roundDiv_bounds (y * sigOf255 a1) (2 ^ (bitlen (y * sigOf255 a1) - 53)) ht1pos
  have hr2 := roundDiv_bounds (y * sigOf255 a2) (2 ^ (bitlen (y * sigOf255 a2) - 53)) ht2pos
  have hstar := sig_cross_mono a1 a2 hlt
  have hystar : y * (sigOf255 a1 * 2 ^ sExp a2) + 256 * (2 ^ sExp a1 + 2 ^ sExp a2)
      ≤ y * (sigOf255 a2 * 2 ^ sExp a1) := by
    have hm := Nat.mul_le_mul_left y hstar
    nlinarith [hm, hy1]
  have hR : roundDiv (y * sigOf255 a1) (2 ^ (bitlen (y * sigOf255 a1) - 53))
        * 2 ^ (bitlen (y * sigOf255 a1) - 53) * 2 ^ sExp a2
      ≤ roundDiv (y * sigOf255 a2) (2 ^ (bitlen (y * sigOf255 a2) - 53))
        * 2 ^ (bitlen (y * sigOf255 a2) - 53) * 2 ^ sExp a1 := by
    have h1 := Nat.mul_le_mul_right (2 ^ sExp a2) hr1.1
    have h2 := Nat.mul_le_mul_right (2 ^ sExp a1) hr2.2
    have e1 : (2 : Nat) ^ (bitlen (y * sigOf255 a1) - 53) * 2 ^ sExp a2
        ≤ 512 * 2 ^ sExp a2 := Nat.mul_le_mul_right _ ht1
    have e2 : (2 : Nat) ^ (bitlen (y * sigOf255 a2) - 53) * 2 ^ sExp a1
        ≤ 512 * 2 ^ sExp a1 := Nat.mul_le_mul_right _ ht2
    nlinarith [h1, h2, e1, e2, hystar]
  show roundDiv (y * sigOf255 a1) (2 ^ (bitlen (y * sigOf255 a1) - 53))
      * 2 ^ (bitlen (y * sigOf255 a1) - 53) / 2 ^ sExp a1
    ≤ roundDiv (y * sigOf255 a2) (2 ^ (bitlen (y * sigOf255 a2) - 53))
      * 2 ^ (bitlen (y * sigOf255 a2) - 53) / 2 ^ sExp a2
  exact floorDivMono _ _ _ _ hS1pos hS2pos hR

/-- The derivation `deriveAlpha` never exceeds the scale value (byte inputs). -/
lemma deriveAlpha_le_scale (y a : Nat) (hy : y ≤ 255) (ha : a ≤ 255) :
    deriveAlpha y a ≤ a := by
  by_cases h255 : a = 255
  · subst h255; simpa [deriveAlpha] using hy
  · simp only [deriveAlpha, h255, if_false, ite_false]
    exact scaledAlpha_le y a hy (by omega)

/-- Every entry of the pre-overwrite luma snapshot is a byte. -/
lemma originalLuma_le (img : Img) : ∀ y0 ∈ originalLuma img, y0 ≤ 255 := by
  intro y0 hy0
  simp only [originalLuma, lumaChannel, toYCrCb, List.map_map, List.mem_map] at hy0
  obtain ⟨p, _, rfl⟩ := hy0
  simp only [Function.comp, bgr2ycrcb, satUInt8]
  omega

/-- C9.  In alpha mode every derived alpha value is at most the (clamped)
alpha scale: the scaled branch rounds `originalLuma * (alphaScale/255)` down
past `alphaScale`, and the fast path copies a byte when `alphaScale = 255`. -/
theorem c9_derived_alpha_le_scale (img : Img) (yValue alphaValue : Nat)
    (ha : alphaValue ≤ 255) :
    ∀ z ∈ (transformCore img yValue true alphaValue).alphaChannel, z ≤ alphaValue := by
  intro z hz
  rw [alphaChannel_transformCore] at hz
  simp only [List.mem_map] at hz
  obtain ⟨y0, hy0, rfl⟩ := hz
  exact deriveAlpha_le_scale y0 alphaValue (originalLuma_le img y0 hy0) ha

/-- Witness for C9: a pure-red pixel (original luma 76) at `alphaScale = 128`. -/
theorem c9_derived_alpha_le_scale_witness :
    128 ≤ 255 ∧
    ∀ z ∈ (transformCore (Img.bgr [⟨0, 0, 255⟩]) 128 true 128).alphaChannel, z ≤ 128 :=
  ⟨by decide, c9_derived_alpha_le_scale (Img.bgr [⟨0, 0, 255⟩]) 128 128 (by decide)⟩

/-- C8.  For a fixed original luma byte, the derived alpha is nondecreasing in
the alpha scale over `[0, 255]`, including across the boundary between the
binary64 scaled branch (`alphaScale < 255`) and the copy fast path
(`alphaScale = 255`). -/
theorem c8_alpha_monotone_in_scale (y a1 a2 : Nat) (hy : y ≤ 255) (h12 : a1 ≤ a2)
    (ha2 : a2 ≤ 255) : deriveAlpha y a1 ≤ deriveAlpha y a2 := by
  by_cases hb2 : a2 = 255
  · subst hb2
    by_cases hb1 : a1 = 255
    · subst hb1; exact le_refl _
    · show (if a1 = 255 then y else scaledAlpha y a1)
          ≤ (if 255 = 255 then y else scaledAlpha y 255)
      rw [if_neg hb1, if_pos rfl]
      exact scaledAlpha_le_y y a1 hy (by omega)
  · have hb1 : a1 ≠ 255 := by omega
    show (if a1 = 255 then y else scaledAlpha y a1)
        ≤ (if a2 = 255 then y else scaledAlpha y a2)
    rw [if_neg hb1, if_neg hb2]
    exact scaledAlpha_mono y a1 a2 hy h12 (by omega)

/-- Witness for C8: luma 200, scales 100 and 255 (across the fast-path
boundary). -/
theorem c8_alpha_monotone_in_scale_witness :
    (200 ≤ 255 ∧ 100 ≤ 255 ∧ 255 ≤ 255) ∧
    deriveAlpha 200 100 ≤ deriveAlpha 200 255 :=
  ⟨by decide, c8_alpha_monotone_in_scale 200 100 255 (by decide) (by decide) (by decide)⟩

/-! ## Batch counting -/

/-- Counting invariant of the batch loop when every write succeeds: the success
counter counts the selected entries that decode, the failure counter counts the
selected entries that do not, and together they count every selected entry —
each selected entry increments exactly one of the two. -/
lemma processEntries_counts (yValue : Int) (alphaMode : Bool) (alphaValue : Int) :
    ∀ entries : List Entry, (∀ e ∈ entries, e.imwriteOk = true) →
      (processEntries entries yValue alphaMode alphaValue).1
          = (entries.filter (fun e => isSelected e && e.decoded.isSome)).length ∧
      (processEntries entries yValue alphaMode alphaValue).2.1
          = (entries.filter (fun e => isSelected e && e.decoded.isNone)).length ∧
      (processEntries entries yValue alphaMode alphaValue).1
          + (processEntries entries yValue alphaMode alphaValue).2.1
          = (entries.filter (fun e => isSelected e)).length
  | [], _ => by simp [processEntries]
  | e :: rest, h => by
    have ih := processEntries_counts yValue alphaMode alphaValue rest
      (fun x hx => h x (List.mem_cons_of_mem e hx))
    have he : e.imwriteOk = true := h e (List.mem_cons_self e rest)
    obtain ⟨ih1, ih2, ih3⟩ := ih
    by_cases hsel : isSelected e
    · cases hd : e.decoded with
      | none =>
        simp [processEntries, hsel, hd, he, extract_chrominance_with_alpha,
          List.filter_cons]
        omega
      | some img =>
        simp [processEntries, hsel, hd, he, extract_chrominance_with_alpha,
          List.filter_cons]
        omega
    · have hsel1 : isSelected e = false := by simpa using hsel
      simp [processEntries, hsel1, List.filter_cons]
      omega

/-- C5.  In a directory whose selected files (allow-listed extensions) number
`N`, of which `M` fail to decode and the rest decode and write successfully,
the batch does not abort on a per-file failure: it returns exactly `N - M`
successes and `M` failures, and the two counters add up to `N` (each selected
file increments exactly one of them). -/
theorem c5_partial_failure_counts (entries : List Entry) (yValue : Int)
    (alphaMode : Bool) (alphaValue : Int) (outputDirExisted : Bool)
    (h : ∀ e ∈ entries, e.imwriteOk = true) :
    (batch_process_folder (some entries) yValue alphaMode alphaValue
        outputDirExisted).successes
      = (entries.filter (fun e => isSelected e)).length
        - (entries.filter (fun e => isSelected e && e.decoded.isNone)).length ∧
    (batch_process_folder (some entries) yValue alphaMode alphaValue
        outputDirExisted).failures
      = (entries.filter (fun e => isSelected e && e.decoded.isNone)).length ∧
    (batch_process_folder (some entries) yValue alphaMode alphaValue
        outputDirExisted).successes
      + (batch_process_folder (some entries) yValue alphaMode alphaValue
          outputDirExisted).failures
      = (entries.filter (fun e => isSelected e)).length := by
  obtain ⟨h1, h2, h3⟩ := processEntries_counts yValue alphaMode alphaValue entries h
  simp only [batch_process_folder]
  exact ⟨by omega, h2, h3⟩

/-- A four-entry directory listing: an undecodable `.png` first, a decodable
`.jpg` after it, a `.txt` file outside the allow-list, and a directory. -/
def demoEntries : List Entry :=
  [ ⟨"corrupt", ".png", true, none, true⟩
  , ⟨"good", ".JPG", true, some (Img.bgr [⟨1, 2, 3⟩]), true⟩
  , ⟨"notes", ".txt", true, some (Img.bgr [⟨1, 2, 3⟩]), true⟩
  , ⟨"subdir", ".png", false, none, true⟩ ]

/-- Witness for C5: on `demoEntries` (N = 2 selected, M = 1 undecodable, the
failure coming first) the batch continues past the failure and reports
exactly one success and one failure. -/
theorem c5_partial_failure_counts_witness :
    (∀ e ∈ demoEntries, e.imwriteOk = true) ∧
    (batch_process_folder (some demoEntries) 128 false 255 true).successes = 1 ∧
    (batch_process_folder (some demoEntries) 128 false 255 true).failures = 1 ∧
    (batch_process_folder (some demoEntries) 128 false 255 true).successes
      + (batch_process_folder (some demoEntries) 128 false 255 true).failures = 2 := by
  have h : ∀ e ∈ demoEntries, e.imwriteOk = true := by decide
  obtain ⟨h1, h2, h3⟩ := c5_partial_failure_counts demoEntries 128 false 255 true h
  refine ⟨h, ?_, ?_, ?_⟩
  · rw [h1]; decide
  · rw [h2]; decide
  · rw [h3]; decide

/-! ## Round-trip luma overwrite -/

/-- The back-conversion at luma `yv` and chroma `(cr, cb)` stays inside the
byte range before saturation: no channel clamps. -/
def noClamp (yv cr cb : Nat) : Prop :=
  0 ≤ (ycrcb2bgrRaw ⟨yv, cr, cb⟩).1 ∧ (ycrcb2bgrRaw ⟨yv, cr, cb⟩).1 ≤ 255 ∧
  0 ≤ (ycrcb2bgrRaw ⟨yv, cr, cb⟩).2.1 ∧ (ycrcb2bgrRaw ⟨yv, cr, cb⟩).2.1 ≤ 255 ∧
  0 ≤ (ycrcb2bgrRaw ⟨yv, cr, cb⟩).2.2 ∧ (ycrcb2bgrRaw ⟨yv, cr, cb⟩).2.2 ≤ 255

instance (yv cr cb : Nat) : Decidable (noClamp yv cr cb) := by
  unfold noClamp; infer_instance

lemma satUInt8_le (x : Int) : satUInt8 x ≤ 255 := by
  unfold satUInt8; omega

/-- Per-pixel round trip: overwriting the luma of a YCrCb pixel with `yv`,
converting back to BGR and re-deriving the luma lands within one unit of `yv`,
provided no channel of the back-conversion saturates. -/
lemma rederived_luma_close (yv cr cb : Nat) (hy : yv ≤ 255)
    (hnc : noClamp yv cr cb) :
    (bgr2ycrcb (ycrcb2bgr ⟨yv, cr, cb⟩)).y ≤ yv + 1 ∧
    yv ≤ (bgr2ycrcb (ycrcb2bgr ⟨yv, cr, cb⟩)).y + 1 := by
  obtain ⟨h1, h2, h3, h4, h5, h6⟩ := hnc
  simp only [ycrcb2bgrRaw, descale] at h1 h2 h3 h4 h5 h6
  simp only [bgr2ycrcb, ycrcb2bgr, ycrcb2bgrRaw, descale, satUInt8]
  omega

/-- C7 counterexample.  A pure red one-pixel image with `lumaValue = 255`:
the luma channel was overwritten with 255 but the re-derived luma of the
result is 202 — off by 53, far outside the claimed ±1 tolerance (the
back-conversion saturates the red channel). -/
theorem c7_counterexample_saturation :
    originalLuma (transformCore (Img.bgr [⟨0, 0, 255⟩]) 255 false 255) = [202] ∧
    ¬(255 : Nat) ≤ 202 + 1 := by
  decide

/-- C7 (amended).  For every input image and `lumaValue` in `[0,255]`,
converting to YCrCb, overwriting the luma with `lumaValue`, converting back
and re-deriving the luma lands within ±1 of `lumaValue` at every pixel at
which the back-conversion does not saturate (all three pre-clamp channel
values lie in `[0,255]`); at saturating pixels the deviation can be larger
(see the counterexample). -/
theorem c7_roundtrip_within_one (ps : List BGRPixel) (yValue alphaValue : Nat)
    (hy : yValue ≤ 255)
    (hnc : ∀ p ∈ ps, noClamp yValue (bgr2ycrcb p).cr (bgr2ycrcb p).cb) :
    ∀ z ∈ originalLuma (transformCore (Img.bgr ps) yValue false alphaValue),
      z ≤ yValue + 1 ∧ yValue ≤ z + 1 := by
  intro z hz
  simp only [transformCore, Bool.false_eq_true, if_false, ite_false,
    Img.colorPixels, originalLuma, lumaChannel, toYCrCb, toBGR, setLuma,
    List.map_map, List.mem_map, Function.comp] at hz
  obtain ⟨p, hp, rfl⟩ := hz
  exact rederived_luma_close yValue (bgr2ycrcb p).cr (bgr2ycrcb p).cb hy (hnc p hp)

/-- Witness for C7 (amended): a gray pixel with `lumaValue = 77`; nothing
clamps and the re-derived luma is within one of 77. -/
theorem c7_roundtrip_within_one_witness :
    (77 ≤ 255 ∧
      ∀ p ∈ [(⟨128, 128, 128⟩ : BGRPixel)],
        noClamp 77 (bgr2ycrcb p).cr (bgr2ycrcb p).cb) ∧
    ∀ z ∈ originalLuma (transformCore (Img.bgr [⟨128, 128, 128⟩]) 77 false 255),
      z ≤ 77 + 1 ∧ 77 ≤ z + 1 :=
  ⟨⟨by decide, by decide⟩,
    c7_roundtrip_within_one [⟨128, 128, 128⟩] 77 255 (by decide) (by decide)⟩
